import Mathlib

/-!
Verification of the yark client modules:
- `src/yark-pages/src/lib/archive.ts` (session store mutation + REST client)
- `src/ui/src/routes/start/+layout.server.ts` (recent-archives cookie load)

The TypeScript is shallowly embedded: the svelte store becomes explicit
state passing on a `YarkStore` value, `fetch` calls are split into a pure
request-building step (returning an `HttpRequest` description, with thrown
exceptions as `Except.error`) and a pure response-handling step, and the
WHATWG `URL` object is modelled by `UrlModel` (origin/pathname/query; the
hash fragment and percent-encoding are not modelled, and `new URL` on a
string without a `://` authority is modelled as failure, matching the
constructor throwing).  `JSON.parse` is modelled by the executable
`jsonParse` below (numbers are modelled as integers; floating point is out
of scope of the claims).
-/

/-- `interface Archive` from archive.ts: `{ server: string; slug: string }`. -/
structure Archive where
  server : String
  slug : String
deriving DecidableEq

/-- The app-wide svelte store state used by `setCurrentArchive` /
`getOpenedArchiveAlways` (`store.ts` itself is not under src/; the two
fields are exactly those archive.ts reads and writes:
`value.openedArchive` and `value.recents`). -/
structure YarkStore where
  openedArchive : Option Archive
  recents : List Archive
deriving DecidableEq

/-- The store before any archive has been opened: no archive open, empty
recents list. -/
def initialYarkStore : YarkStore :=
  { openedArchive := none, recents := [] }

/-- `const RECENTS_MAX = 30` in `setCurrentArchive`. -/
def RECENTS_MAX : Nat := 30

/-- The updater closure passed to `yarkStore.update` by `setCurrentArchive`:
sets `openedArchive`, shifts the recents list when at capacity
(`value.recents.shift()` removes the first element), then pushes the new
archive at the end. -/
def setCurrentArchiveUpdate (archive : Archive) (value : YarkStore) : YarkStore :=
  let value := { value with openedArchive := some archive }
  let value :=
    if RECENTS_MAX ≤ value.recents.length then
      { value with recents := value.recents.tail }
    else value
  { value with recents := value.recents ++ [archive] }

/-- `setCurrentArchive(archive)`: updates the store and navigates with
`goto('/archive/videos')`; the navigation target is returned alongside the
new store state. -/
def setCurrentArchive (archive : Archive) (st : YarkStore) : YarkStore × String :=
  (setCurrentArchiveUpdate archive st, "/archive/videos")

/-- Runs a sequence of `setCurrentArchive` calls from a given store state. -/
def applyCalls (st : YarkStore) (calls : List Archive) : YarkStore :=
  calls.foldl (fun s a => (setCurrentArchive a s).1) st

/-- `enum ArchiveVideoKind { Videos, Livestreams, Shorts }`. -/
inductive ArchiveVideoKind where
  | Videos
  | Livestreams
  | Shorts
deriving DecidableEq

/-- `archiveVideoKindToString`: the exhaustive switch in archive.ts. -/
def archiveVideoKindToString (kind : ArchiveVideoKind) : String :=
  match kind with
  | .Videos => "videos"
  | .Livestreams => "livestreams"
  | .Shorts => "shorts"

/-- JSON values, as produced by `JSON.parse` / consumed by `JSON.stringify`.
Numbers are modelled as integers (no claim involves non-integer numbers). -/
inductive Json where
  | null
  | bool (b : Bool)
  | num (n : Int)
  | str (s : String)
  | arr (elems : List Json)
  | obj (fields : List (String × Json))

/-- A WHATWG `URL` object, reduced to the parts archive.ts manipulates:
`origin` (scheme plus authority), `pathname`, and the `searchParams` list.
Hash fragments are dropped and percent-encoding is not modelled. -/
structure UrlModel where
  origin : String
  pathname : String
  search : List (String × String)
deriving DecidableEq

/-- Splits off the scheme at the first `:`; the model only supports URLs
whose `:` is followed by `//` (an authority), as all archive URLs are. -/
def splitSchemeSep : List Char → Option (List Char × List Char)
  | [] => none
  | c :: rest =>
    if c = ':' then
      match rest with
      | '/' :: '/' :: r2 => some ([], r2)
      | _ => none
    else
      match splitSchemeSep rest with
      | some (a, b) => some (c :: a, b)
      | none => none

/-- Splits the authority from the start of the path/query/fragment: the
host part ends at the first `/`, `?` or `#`. -/
def breakAtPathStart : List Char → List Char × List Char
  | [] => ([], [])
  | c :: rest =>
    if c = '/' ∨ c = '?' ∨ c = '#' then ([], c :: rest)
    else
      let (a, b) := breakAtPathStart rest
      (c :: a, b)

/-- Splits the path from the query at the first `?`. -/
def splitAtQuestion : List Char → List Char × Option (List Char)
  | [] => ([], none)
  | c :: rest =>
    if c = '?' then ([], some rest)
    else
      let (a, b) := splitAtQuestion rest
      (c :: a, b)

/-- Splits a character list at the first occurrence of `ch`. -/
def splitAtChar (ch : Char) : List Char → List Char × Option (List Char)
  | [] => ([], none)
  | c :: rest =>
    if c = ch then ([], some rest)
    else
      let (a, b) := splitAtChar ch rest
      (c :: a, b)

/-- Parses `k1=v1&k2=v2&...` into the searchParams list (fuelled by the
input length; each step consumes at least the separator). -/
def parseQueryLoop : Nat → List Char → List (String × String)
  | 0, _ => []
  | fuel + 1, cs =>
    let (pair, rest) := splitAtChar '&' cs
    let (k, v) := splitAtChar '=' pair
    (String.mk k, String.mk (v.getD [])) ::
      match rest with
      | none => []
      | some r => parseQueryLoop fuel r

/-- Parses a query string (without the leading `?`) into searchParams. -/
def parseQuery (cs : List Char) : List (String × String) :=
  if cs.isEmpty then [] else parseQueryLoop (cs.length + 1) cs

/-- `new URL(s)`: parses scheme/authority/path/query; `none` models the
constructor throwing `TypeError` on a string without a `://` authority. -/
def newURL (s : String) : Option UrlModel :=
  match splitSchemeSep s.data with
  | none => none
  | some (scheme, rest) =>
    let (host, pathq) := breakAtPathStart rest
    let pathq := pathq.takeWhile (fun c => c ≠ '#')
    let (path, query) := splitAtQuestion pathq
    some
      { origin := String.mk (scheme ++ ':' :: '/' :: '/' :: host)
        pathname := String.mk path
        search := parseQuery (query.getD []) }

/-- `url.searchParams.set(k, v)`: overwrites the first pair with key `k`
(removing later duplicates) or appends when `k` is absent. -/
def searchParamsSet (ps : List (String × String)) (k v : String) :
    List (String × String) :=
  match ps with
  | [] => [(k, v)]
  | (k0, v0) :: rest =>
    if k0 = k then (k, v) :: rest.filter (fun p => p.1 != k)
    else (k0, v0) :: searchParamsSet rest k v

/-- Serializes searchParams back into the `?...` suffix of `url.href`. -/
def querySerialize (ps : List (String × String)) : String :=
  if ps.isEmpty then ""
  else "?" ++ String.intercalate "&" (ps.map (fun p => p.1 ++ "=" ++ p.2))

/-- `url.href`, the string `fetch` receives when passed the URL object. -/
def urlHref (u : UrlModel) : String :=
  u.origin ++ u.pathname ++ querySerialize u.search

/-- A link string that `new URL` parses into origin plus pathname with no
query: exactly the well-formedness the archive links rely on. -/
def cleanLink (s : String) : Bool :=
  match newURL s with
  | some u => u.origin ++ u.pathname = s && u.search.isEmpty
  | none => false

/-- An HTTP request as issued by `fetch(url, options)`. -/
structure HttpRequest where
  method : String
  url : String
  headers : List (String × String) := []
  body : Option Json := none

/-- `interface Note`: user note attached to a video timestamp. -/
structure Note where
  id : String
  timestamp : Int
  title : String
  body : String
deriving DecidableEq

/-- The error message thrown by `getOpenedArchiveAlways`. -/
def archiveNotOpenMsg : String := "Archive was expected to be open but it wasn't"

/-- `getOpenedArchiveAlways()`: returns the opened archive from the store
or throws when none is set. -/
def getOpenedArchiveAlways (st : YarkStore) : Except String Archive :=
  match st.openedArchive with
  | none => .error archiveNotOpenMsg
  | some archive => .ok archive

/-- `getArchiveApiLink(archive)`: the template
`${archive.server}/archive/${archive.slug}`. -/
def getArchiveApiLink (archive : Archive) : String :=
  archive.server ++ "/archive/" ++ archive.slug

/-- `getOpenedArchiveApiLink()`: archive link of the opened archive, or the
exception from `getOpenedArchiveAlways`. -/
def getOpenedArchiveApiLink (st : YarkStore) : Except String String :=
  match getOpenedArchiveAlways st with
  | .error e => .error e
  | .ok archive => .ok (getArchiveApiLink archive)

/-- `getVideoThumbnailApiLink(thumbnail_id)`: pure URL builder
`${getOpenedArchiveApiLink()}/thumbnail/${thumbnail_id}`. -/
def getVideoThumbnailApiLink (st : YarkStore) (thumbnail_id : String) :
    Except String String :=
  match getOpenedArchiveApiLink st with
  | .error e => .error e
  | .ok link => .ok (link ++ "/thumbnail/" ++ thumbnail_id)

/-- `getVideoFileApiLink(videoId)`: pure URL builder
`${getOpenedArchiveApiLink()}/video/${videoId}/file`. -/
def getVideoFileApiLink (st : YarkStore) (videoId : String) :
    Except String String :=
  match getOpenedArchiveApiLink st with
  | .error e => .error e
  | .ok link => .ok (link ++ "/video/" ++ videoId ++ "/file")

/-- `interface CreateArchiveRemotePayload`. -/
structure CreateArchiveRemotePayload where
  server : String
  slug : String
  path : String
  target : String

/-- The request built by `createNewRemoteArchive`: `new URL(server)`, then
`url.pathname = '/archive'`, `url.searchParams.set('intent', 'create')`,
POSTed with the JSON payload `{slug, path, target}` and the bearer token
from `getAdminSecret()` (the credential collaborator, passed in here). -/
def createNewRemoteArchiveRequest (p : CreateArchiveRemotePayload)
    (adminSecret : String) : Except String HttpRequest :=
  match newURL p.server with
  | none => .error "TypeError: Invalid URL"
  | some url =>
    let url := { url with pathname := "/archive" }
    let url := { url with search := searchParamsSet url.search "intent" "create" }
    .ok
      { method := "POST"
        url := urlHref url
        headers :=
          [("Content-Type", "application/json"),
           ("Authentication", "Bearer " ++ adminSecret)]
        body := some (.obj
          [("slug", .str p.slug), ("path", .str p.path),
           ("target", .str p.target)]) }

/-- The response handling of `createNewRemoteArchive`: returns
`{ server, slug: resp_json.slug }`; `none` models the response body not
being an object with a string `slug` field. -/
def createNewRemoteArchiveResponse (p : CreateArchiveRemotePayload)
    (respJson : Json) : Option Archive :=
  match respJson with
  | .obj fields =>
    match fields.lookup "slug" with
    | some (.str slug) => some { server := p.server, slug := slug }
    | _ => none
  | _ => none

/-- The request built by `fetchVideosBrief(kind)`:
`new URL(getOpenedArchiveApiLink())` with `searchParams.set('kind', ...)`,
fetched with the default GET method. -/
def fetchVideosBriefRequest (st : YarkStore) (kind : ArchiveVideoKind) :
    Except String HttpRequest :=
  match getOpenedArchiveApiLink st with
  | .error e => .error e
  | .ok link =>
    match newURL link with
    | none => .error "TypeError: Invalid URL"
    | some url =>
      let url :=
        { url with
            search := searchParamsSet url.search "kind"
              (archiveVideoKindToString kind) }
      .ok { method := "GET", url := urlHref url }

/-- The response handling of `fetchVideosBrief`: the parsed JSON body is
returned as-is (`resp.json()` with no validation or reordering). -/
def fetchVideosBriefHandle (respJson : Json) : Json :=
  respJson

/-- The request built by `fetchVideoDetails(id)`:
`new URL(getOpenedArchiveApiLink())` with `url.pathname += '/video/${id}'`. -/
def fetchVideoDetailsRequest (st : YarkStore) (id : String) :
    Except String HttpRequest :=
  match getOpenedArchiveApiLink st with
  | .error e => .error e
  | .ok link =>
    match newURL link with
    | none => .error "TypeError: Invalid URL"
    | some url =>
      let url := { url with pathname := url.pathname ++ "/video/" ++ id }
      .ok { method := "GET", url := urlHref url }

/-- The request built by `deleteNote(video_id, note)`:
`url.pathname += '/video/${video_id}/note/${note.id}'`, `method: "DELETE"`. -/
def deleteNoteRequest (st : YarkStore) (video_id : String) (note : Note) :
    Except String HttpRequest :=
  match getOpenedArchiveApiLink st with
  | .error e => .error e
  | .ok link =>
    match newURL link with
    | none => .error "TypeError: Invalid URL"
    | some url =>
      let url :=
        { url with
            pathname := url.pathname ++ "/video/" ++ video_id ++
              "/note/" ++ note.id }
      .ok { method := "DELETE", url := urlHref url }

/-- The response handling of `deleteNote`: the awaited response is
discarded, whatever its status; `fetch` resolves on any HTTP status, so no
error is surfaced for non-2xx responses. -/
def deleteNoteHandle (status : Nat) : Unit :=
  let _ := status
  ()

/-- Insignificant whitespace between JSON tokens. -/
def isWsChar (c : Char) : Bool :=
  c = ' ' || c = '\n' || c = '\t' || c = '\r'

/-- Skips insignificant whitespace. -/
def skipWs (cs : List Char) : List Char :=
  cs.dropWhile isWsChar

/-- Value of one hex digit, if the character is one. -/
def hexVal (c : Char) : Option Nat :=
  if 48 ≤ c.toNat ∧ c.toNat ≤ 57 then some (c.toNat - 48)
  else if 97 ≤ c.toNat ∧ c.toNat ≤ 102 then some (c.toNat - 87)
  else if 65 ≤ c.toNat ∧ c.toNat ≤ 70 then some (c.toNat - 55)
  else none

/-- Value of a four-hex-digit escape. -/
def hex4Val (a b c d : Char) : Option Nat :=
  match hexVal a, hexVal b, hexVal c, hexVal d with
  | some x, some y, some z, some w => some (4096 * x + 256 * y + 16 * z + w)
  | _, _, _, _ => none

/-- The character denoted by a single-letter JSON escape. -/
def escapeLetterValue (e : Char) : Option Char :=
  if e = '"' then some '"'
  else if e = '\\' then some '\\'
  else if e = '/' then some '/'
  else if e = 'n' then some '\n'
  else if e = 't' then some '\t'
  else if e = 'r' then some '\r'
  else if e = 'b' then some (Char.ofNat 8)
  else if e = 'f' then some (Char.ofNat 12)
  else none

/-- Scans a JSON string literal body up to the closing quote, decoding
escapes; returns the decoded characters and the input after the quote. -/
def parseStringBody : List Char → Option (List Char × List Char)
  | [] => none
  | c :: rest =>
    if c = '"' then some ([], rest)
    else if c = '\\' then
      match rest with
      | [] => none
      | e :: rest2 =>
        if e = 'u' then
          match rest2 with
          | a :: b :: c2 :: d :: rest3 =>
            match hex4Val a b c2 d with
            | some n =>
              match parseStringBody rest3 with
              | some (s, r) => some (Char.ofNat n :: s, r)
              | none => none
            | none => none
          | _ => none
        else
          match escapeLetterValue e with
          | some ec =>
            match parseStringBody rest2 with
            | some (s, r) => some (ec :: s, r)
            | none => none
          | none => none
    else
      match parseStringBody rest with
      | some (s, r) => some (c :: s, r)
      | none => none

/-- Accumulates a run of decimal digits. -/
def digitsVal (acc : Nat) : List Char → Nat × List Char
  | [] => (acc, [])
  | c :: rest =>
    if c.isDigit then digitsVal (acc * 10 + (c.toNat - 48)) rest
    else (acc, c :: rest)

mutual

/-- Parses one JSON value (fuelled recursion; `jsonParse` supplies fuel
ample for any input, so fuel exhaustion never rejects a parseable input). -/
def parseVal : Nat → List Char → Option (Json × List Char)
  | 0, _ => none
  | fuel + 1, cs =>
    match skipWs cs with
    | [] => none
    | c :: rest =>
      if c = '"' then
        match parseStringBody rest with
        | some (s, r) => some (.str (String.mk s), r)
        | none => none
      else if c = '[' then
        match skipWs rest with
        | ']' :: r2 => some (.arr [], r2)
        | _ =>
          match parseElems fuel rest with
          | some (elems, r) => some (.arr elems, r)
          | none => none
      else if c = '{' then
        match skipWs rest with
        | '}' :: r2 => some (.obj [], r2)
        | _ =>
          match parseFields fuel rest with
          | some (fields, r) => some (.obj fields, r)
          | none => none
      else if c = 't' then
        match rest with
        | 'r' :: 'u' :: 'e' :: r => some (.bool true, r)
        | _ => none
      else if c = 'f' then
        match rest with
        | 'a' :: 'l' :: 's' :: 'e' :: r => some (.bool false, r)
        | _ => none
      else if c = 'n' then
        match rest with
        | 'u' :: 'l' :: 'l' :: r => some (.null, r)
        | _ => none
      else if c = '-' then
        match rest with
        | d :: _ =>
          if d.isDigit then
            let (n, r) := digitsVal 0 rest
            some (.num (-(n : Int)), r)
          else none
        | [] => none
      else if c.isDigit then
        let (n, r) := digitsVal 0 (c :: rest)
        some (.num (n : Int), r)
      else none

/-- Parses the comma-separated elements of a non-empty JSON array,
consuming the closing bracket. -/
def parseElems : Nat → List Char → Option (List Json × List Char)
  | 0, _ => none
  | fuel + 1, cs =>
    match parseVal fuel cs with
    | none => none
    | some (j, r1) =>
      match skipWs r1 with
      | ',' :: r2 =>
        match parseElems fuel r2 with
        | some (elems, r3) => some (j :: elems, r3)
        | none => none
      | ']' :: r2 => some ([j], r2)
      | _ => none

/-- Parses the comma-separated fields of a non-empty JSON object,
consuming the closing brace. -/
def parseFields : Nat → List Char → Option (List (String × Json) × List Char)
  | 0, _ => none
  | fuel + 1, cs =>
    match skipWs cs with
    | '"' :: rest =>
      match parseStringBody rest with
      | none => none
      | some (k, r1) =>
        match skipWs r1 with
        | ':' :: r2 =>
          match parseVal fuel r2 with
          | none => none
          | some (v, r3) =>
            match skipWs r3 with
            | ',' :: r4 =>
              match parseFields fuel r4 with
              | some (fields, r5) => some ((String.mk k, v) :: fields, r5)
              | none => none
            | '}' :: r4 => some ([(String.mk k, v)], r4)
            | _ => none
        | _ => none
    | _ => none

end

/-- `JSON.parse`: parses a complete JSON document, rejecting trailing
non-whitespace; `none` models the thrown `SyntaxError`. -/
def jsonParse (s : String) : Option Json :=
  match parseVal (2 * s.length + 2) s.data with
  | some (j, rest) => if skipWs rest = [] then some j else none
  | none => none

/-- The response handling of `fetchVideoDetails`: reads the raw response
text, `JSON.parse`s it, and returns the pair `[json, rawArchive]`; `none`
models `JSON.parse` throwing. -/
def fetchVideoDetailsHandle (rawArchive : String) : Option (Json × String) :=
  match jsonParse rawArchive with
  | some json => some (json, rawArchive)
  | none => none

/-- One hex digit character (lowercase). -/
def hexDigit (k : Nat) : Char :=
  if k < 10 then Char.ofNat (48 + k) else Char.ofNat (87 + k)

/-- Four-hex-digit rendering of a code point below 0x10000. -/
def toHex4 (n : Nat) : List Char :=
  [hexDigit (n / 4096 % 16), hexDigit (n / 256 % 16),
   hexDigit (n / 16 % 16), hexDigit (n % 16)]

/-- JSON string escaping: quote, backslash and control characters are
written with the uniform `\uXXXX` escape; other characters are literal. -/
def escapeChar (c : Char) : List Char :=
  if c = '"' ∨ c = '\\' ∨ c.toNat < 32 then '\\' :: 'u' :: toHex4 c.toNat
  else [c]

/-- Escapes a string body character by character. -/
def serializeStringData : List Char → List Char
  | [] => []
  | c :: cs => escapeChar c ++ serializeStringData cs

/-- A JSON string literal, quotes included. -/
def strLitData (s : String) : List Char :=
  '"' :: (serializeStringData s.data ++ ['"'])

/-- The JSON value of one `{server, slug}` record, fields in the insertion
order `JSON.stringify` preserves. -/
def archiveJson (a : Archive) : Json :=
  .obj [("server", .str a.server), ("slug", .str a.slug)]

/-- Serialized JSON object body of one `{server, slug}` record (everything
after the opening brace). -/
def encodeArchiveTailData (a : Archive) : List Char :=
  strLitData "server" ++ ':' ::
    (strLitData a.server ++ ',' :: (strLitData "slug" ++ ':' ::
      (strLitData a.slug ++ ['}'])))

/-- Serialized JSON object of one `{server, slug}` record. -/
def encodeArchiveData (a : Archive) : List Char :=
  '{' :: encodeArchiveTailData a

/-- Comma-prefixed serialization of the remaining array elements. -/
def encodeRecentsSepData : List Archive → List Char
  | [] => []
  | a :: rest => ',' :: (encodeArchiveData a ++ encodeRecentsSepData rest)

/-- Serialized JSON array of `{server, slug}` records. -/
def encodeRecentsData : List Archive → List Char
  | [] => ['[', ']']
  | a :: rest => '[' :: (encodeArchiveData a ++ (encodeRecentsSepData rest ++ [']']))

/-- Modelled from the spec: the writer of the `recentArchives` cookie is
not under src/; the spec says the cookie holds "a JSON-encoded array of
`{server, slug}` records". This encoder produces exactly that JSON text. -/
def encodeRecents (l : List Archive) : String :=
  String.mk (encodeRecentsData l)

/-- The typed reading of one parsed cookie entry as a `RecentArchive`
record (the TypeScript cast `JSON.parse(raw)` as `RecentArchive[]`,
made explicit). -/
def jsonToArchive (j : Json) : Option Archive :=
  match j with
  | .obj [(k1, .str server), (k2, .str slug)] =>
    if k1 = "server" ∧ k2 = "slug" then some ⟨server, slug⟩ else none
  | _ => none

/-- Typed reading of the parsed cookie array. -/
def jsonToArchives : List Json → Option (List Archive)
  | [] => some []
  | j :: rest =>
    match jsonToArchive j, jsonToArchives rest with
    | some a, some l => some (a :: l)
    | _, _ => none

/-- The cookie handling of `load` in +layout.server.ts (lines 13-15):
`cookies.get("recentArchives")` absent yields the empty list, otherwise
the raw cookie is `JSON.parse`d and read as `RecentArchive[]`; `none`
models `JSON.parse` throwing (or the cast not fitting the record shape). -/
def loadRecentArchives (cookie : Option String) : Option (List Archive) :=
  match cookie with
  | none => some []
  | some raw =>
    match jsonParse raw with
    | some (.arr elems) => jsonToArchives elems
    | _ => none

/-- Modelled from the spec: `Element` from `$lib/element` is not under
src/; the spec defines it as "a value with recorded history (current +
past states)". It is modelled as the chronological list of recorded
values. -/
structure Element where
  values : List String
deriving DecidableEq

/-- Modelled from the spec: `elementWasUpdated` (the Element
collaborator's own "was updated" check) — true when the history
"indicates its current value differs from the prior recorded value",
i.e. more than one value has been recorded. -/
def elementWasUpdated (e : Element) : Bool :=
  decide (2 ≤ e.values.length)

/-- `interface VideoBrief`: summary row for list views (`uploaded` is the
upload date, kept as its ISO string). -/
structure VideoBrief where
  id : String
  title : String
  uploaded : String
  thumbnail_id : String

/-- `interface VideoDetailed`: the raw archive format of one video
(`comments` is the acknowledged placeholder, kept as opaque JSON). -/
structure VideoDetailed where
  uploaded : String
  width : Int
  height : Int
  title : Element
  description : Element
  views : Element
  likes : Element
  thumbnail : Element
  deleted : Element
  notes : List Note
  comments : Json

/-- `videoWasUpdated(video)`: checks the three major elements. -/
def videoWasUpdated (video : VideoDetailed) : Bool :=
  elementWasUpdated video.title || elementWasUpdated video.description ||
    elementWasUpdated video.thumbnail

theorem setCurrentArchiveUpdate_openedArchive (a : Archive) (st : YarkStore) :
    (setCurrentArchiveUpdate a st).openedArchive = some a := by
  unfold setCurrentArchiveUpdate
  dsimp only
  split <;> rfl

theorem setCurrentArchiveUpdate_recents_le (a : Archive) (st : YarkStore)
    (h : st.recents.length ≤ 30) :
    (setCurrentArchiveUpdate a st).recents.length ≤ 30 := by
  unfold setCurrentArchiveUpdate
  dsimp only
  split
  · next hc =>
    simp only [List.length_append, List.length_tail, List.length_cons,
      List.length_nil]
    simp only [RECENTS_MAX] at hc
    omega
  · next hc =>
    simp only [List.length_append, List.length_cons, List.length_nil]
    simp only [RECENTS_MAX] at hc
    omega

theorem applyCalls_recents_le (calls : List Archive) (st : YarkStore)
    (h : st.recents.length ≤ 30) :
    (applyCalls st calls).recents.length ≤ 30 := by
  induction calls generalizing st with
  | nil => exact h
  | cons a rest ih =>
    simp only [applyCalls, List.foldl_cons]
    exact ih _ (setCurrentArchiveUpdate_recents_le a st h)

/-- C1: starting from the initial store, after the Nth `setCurrentArchive`
call the open archive is the Nth archive passed; the recents list never
exceeds 30 entries; and a call made with the recents list at capacity 30
drops the first-inserted entry and appends the new archive at the end. -/
theorem setCurrentArchive_store_spec :
    (∀ (calls : List Archive) (a : Archive),
      (applyCalls initialYarkStore (calls ++ [a])).openedArchive = some a)
    ∧ (∀ calls : List Archive,
      (applyCalls initialYarkStore calls).recents.length ≤ 30)
    ∧ (∀ (st : YarkStore) (a : Archive), st.recents.length = 30 →
      ((setCurrentArchive a st).1).recents = st.recents.tail ++ [a]) := by
  refine ⟨?_, ?_, ?_⟩
  · intro calls a
    simp only [applyCalls, List.foldl_append, List.foldl_cons, List.foldl_nil]
    exact setCurrentArchiveUpdate_openedArchive a _
  · intro calls
    exact applyCalls_recents_le calls initialYarkStore (by simp [initialYarkStore])
  · intro st a h
    simp only [setCurrentArchive, setCurrentArchiveUpdate]
    rw [if_pos]
    simp [RECENTS_MAX, h]

/-- Witness for C1 at a concrete store with a full recents list: the
eviction branch drops the oldest entry before appending. -/
theorem setCurrentArchive_store_spec_witness :
    ((setCurrentArchive ⟨"https://s", "new"⟩
        ⟨none, List.replicate 30 ⟨"https://s", "old"⟩⟩).1).recents =
      (List.replicate 30 (⟨"https://s", "old"⟩ : Archive)).tail ++
        [⟨"https://s", "new"⟩] :=
  setCurrentArchive_store_spec.2.2
    ⟨none, List.replicate 30 ⟨"https://s", "old"⟩⟩ ⟨"https://s", "new"⟩
    (by simp)

/-- Example store with a well-formed opened archive, used by witnesses. -/
def exampleOpenStore : YarkStore :=
  { openedArchive := some ⟨"https://example.com", "abc"⟩, recents := [] }

/-- C2: `getOpenedArchiveAlways` fails exactly when no archive is open in
the store and otherwise returns the opened archive; with no archive open,
every archive-scoped operation fails immediately with that same error
rather than silently doing nothing. -/
theorem getOpenedArchiveAlways_spec :
    ∀ st : YarkStore,
      ((∃ e, getOpenedArchiveAlways st = .error e) ↔ st.openedArchive = none)
      ∧ (∀ a, st.openedArchive = some a → getOpenedArchiveAlways st = .ok a)
      ∧ (st.openedArchive = none →
          getOpenedArchiveAlways st = .error archiveNotOpenMsg
          ∧ (∀ kind, fetchVideosBriefRequest st kind = .error archiveNotOpenMsg)
          ∧ (∀ id, fetchVideoDetailsRequest st id = .error archiveNotOpenMsg)
          ∧ (∀ video_id note,
              deleteNoteRequest st video_id note = .error archiveNotOpenMsg)
          ∧ (∀ thumbnail_id,
              getVideoThumbnailApiLink st thumbnail_id = .error archiveNotOpenMsg)
          ∧ (∀ videoId,
              getVideoFileApiLink st videoId = .error archiveNotOpenMsg)) := by
  intro st
  cases h : st.openedArchive with
  | none =>
    refine ⟨?_, ?_, ?_⟩
    · simp [getOpenedArchiveAlways, h]
    · intro a ha
      cases ha
    · intro _
      refine ⟨?_, ?_, ?_, ?_, ?_, ?_⟩ <;>
        simp [getOpenedArchiveAlways, getOpenedArchiveApiLink,
          fetchVideosBriefRequest, fetchVideoDetailsRequest,
          deleteNoteRequest, getVideoThumbnailApiLink, getVideoFileApiLink, h]
  | some a =>
    refine ⟨?_, ?_, ?_⟩
    · simp [getOpenedArchiveAlways, h]
    · intro b hb
      cases hb
      simp [getOpenedArchiveAlways, h]
    · intro hn
      cases hn

/-- Witness for C2: on the initial store (no archive open), the accessor
and an archive-scoped operation both fail with the expected error. -/
theorem getOpenedArchiveAlways_spec_witness :
    getOpenedArchiveAlways initialYarkStore = .error archiveNotOpenMsg
    ∧ fetchVideosBriefRequest initialYarkStore .Videos = .error archiveNotOpenMsg :=
  ⟨((getOpenedArchiveAlways_spec initialYarkStore).2.2 rfl).1,
   ((getOpenedArchiveAlways_spec initialYarkStore).2.2 rfl).2.1 .Videos⟩

/-- The example state of C3 taken literally: the opened archive's server
string is "https://h/", trailing slash included. -/
def exampleSlashStore : YarkStore :=
  { openedArchive := some ⟨"https://h/", "abc"⟩, recents := [] }

/-- C3 counterexample: with server "https://h/" and slug "abc" the link
template `${server}/archive/${slug}` yields "https://h//archive/abc", and
the `URL` object preserves the double slash, so `fetchVideosBrief(Shorts)`
issues GET https://h//archive/abc?kind=shorts — not the claimed
https://h/archive/abc?kind=shorts. -/
theorem fetchVideosBrief_example_counterexample :
    (fetchVideosBriefRequest exampleSlashStore .Shorts).map HttpRequest.url =
      .ok "https://h//archive/abc?kind=shorts"
    ∧ ("https://h//archive/abc?kind=shorts" : String) ≠
        "https://h/archive/abc?kind=shorts" :=
  ⟨rfl, by decide⟩

/-- C3 amended: with the trailing slash dropped from the example server
(server "https://h", slug "abc"), `fetchVideosBrief(Shorts)` issues exactly
GET https://h/archive/abc?kind=shorts — and for every kind the query is the
stringified kind — and every JSON-array response body is returned with its
elements unmodified and in the same order. -/
theorem fetchVideosBrief_example_spec :
    (∀ kind,
      fetchVideosBriefRequest ⟨some ⟨"https://h", "abc"⟩, []⟩ kind =
        .ok { method := "GET",
              url := "https://h/archive/abc?kind=" ++ archiveVideoKindToString kind })
    ∧ fetchVideosBriefRequest ⟨some ⟨"https://h", "abc"⟩, []⟩ .Shorts =
        .ok { method := "GET", url := "https://h/archive/abc?kind=shorts" }
    ∧ ∀ elems : List Json, fetchVideosBriefHandle (.arr elems) = .arr elems := by
  refine ⟨?_, rfl, fun _ => rfl⟩
  intro kind
  cases kind <;> rfl

/-- C5: for every payload whose server parses as a bare origin URL,
`createNewRemoteArchive` POSTs to {server}/archive?intent=create with JSON
body {slug, path, target} and a bearer token in the Authentication header,
and maps any response object carrying a string `slug` field to the archive
record whose server is the input server and whose slug is the response's. -/
theorem createNewRemoteArchive_spec :
    ∀ (p : CreateArchiveRemotePayload) (adminSecret : String),
      newURL p.server = some { origin := p.server, pathname := "", search := [] } →
      createNewRemoteArchiveRequest p adminSecret =
        .ok { method := "POST",
              url := p.server ++ "/archive?intent=create",
              headers := [("Content-Type", "application/json"),
                          ("Authentication", "Bearer " ++ adminSecret)],
              body := some (.obj [("slug", .str p.slug), ("path", .str p.path),
                                  ("target", .str p.target)]) }
      ∧ ∀ (fields : List (String × Json)) (slug : String),
          fields.lookup "slug" = some (.str slug) →
          createNewRemoteArchiveResponse p (.obj fields) =
            some { server := p.server, slug := slug } := by
  intro p adminSecret h
  constructor
  · simp only [createNewRemoteArchiveRequest, h]
    have hu : urlHref
        (UrlModel.mk p.server "/archive" (searchParamsSet [] "intent" "create")) =
        p.server ++ "/archive?intent=create" := by
      show p.server ++ "/archive" ++ "?intent=create" = _
      rw [String.append_assoc]
      exact congrArg (fun s => p.server ++ s) (by decide)
    rw [hu]
  · intro fields slug hf
    simp [createNewRemoteArchiveResponse, hf]

/-- Witness for C5 at a concrete payload, token and response body. -/
theorem createNewRemoteArchive_spec_witness :
    createNewRemoteArchiveRequest
        ⟨"https://example.com", "s1", "/data/a", "https://yt.example"⟩ "tok" =
      .ok { method := "POST",
            url := "https://example.com/archive?intent=create",
            headers := [("Content-Type", "application/json"),
                        ("Authentication", "Bearer tok")],
            body := some (.obj [("slug", .str "s1"), ("path", .str "/data/a"),
                                ("target", .str "https://yt.example")]) }
    ∧ createNewRemoteArchiveResponse
        ⟨"https://example.com", "s1", "/data/a", "https://yt.example"⟩
        (.obj [("slug", .str "srv-slug")]) =
      some ⟨"https://example.com", "srv-slug"⟩ :=
  ⟨(createNewRemoteArchive_spec
      ⟨"https://example.com", "s1", "/data/a", "https://yt.example"⟩ "tok" rfl).1,
   (createNewRemoteArchive_spec
      ⟨"https://example.com", "s1", "/data/a", "https://yt.example"⟩ "tok" rfl).2
     [("slug", .str "srv-slug")] "srv-slug" rfl⟩

/-- C9: with an archive open whose link parses cleanly, `deleteNote` issues
a single DELETE request to {archive link}/video/{videoId}/note/{note.id},
returns no value, and its response handling ignores the HTTP status, so a
non-2xx response surfaces no error. -/
theorem deleteNote_spec :
    ∀ (st : YarkStore) (a : Archive) (video_id : String) (note : Note),
      st.openedArchive = some a →
      cleanLink (getArchiveApiLink a) = true →
      deleteNoteRequest st video_id note =
        .ok { method := "DELETE",
              url := getArchiveApiLink a ++ "/video/" ++ video_id ++
                "/note/" ++ note.id }
      ∧ ∀ status : Nat, deleteNoteHandle status = () := by
  intro st a video_id note hopen hclean
  refine ⟨?_, fun _ => rfl⟩
  simp only [cleanLink] at hclean
  cases hu : newURL (getArchiveApiLink a) with
  | none => rw [hu] at hclean; cases hclean
  | some u =>
    rw [hu] at hclean
    simp only [Bool.and_eq_true, decide_eq_true_eq, List.isEmpty_iff] at hclean
    obtain ⟨hlink, hsearch⟩ := hclean
    simp only [deleteNoteRequest, getOpenedArchiveApiLink,
      getOpenedArchiveAlways, hopen, hu]
    simp [urlHref, querySerialize, hsearch, ← hlink, String.append_assoc]

/-- Witness for C9 at a concrete open store, video and note. -/
theorem deleteNote_spec_witness :
    deleteNoteRequest exampleOpenStore "v1" ⟨"n1", 0, "t", "b"⟩ =
      .ok { method := "DELETE",
            url := "https://example.com/archive/abc/video/v1/note/n1" }
    ∧ deleteNoteHandle 404 = () :=
  ⟨(deleteNote_spec exampleOpenStore ⟨"https://example.com", "abc"⟩ "v1"
      ⟨"n1", 0, "t", "b"⟩ rfl rfl).1,
   (deleteNote_spec exampleOpenStore ⟨"https://example.com", "abc"⟩ "v1"
      ⟨"n1", 0, "t", "b"⟩ rfl rfl).2 404⟩

/-- C10: the request issued by `deleteNote` depends on the note only
through its `id` field — two notes with equal ids yield identical requests
whatever their timestamp, title and body. -/
theorem deleteNote_depends_only_on_id :
    ∀ (st : YarkStore) (video_id : String) (n1 n2 : Note),
      n1.id = n2.id →
      deleteNoteRequest st video_id n1 = deleteNoteRequest st video_id n2 := by
  intro st video_id n1 n2 h
  simp [deleteNoteRequest, h]

/-- Witness for C10: two notes sharing an id but differing in timestamp,
title and body produce the same request. -/
theorem deleteNote_depends_only_on_id_witness :
    deleteNoteRequest exampleOpenStore "v1" ⟨"n1", 1, "A", "B"⟩ =
      deleteNoteRequest exampleOpenStore "v1" ⟨"n1", 2, "C", "D"⟩ :=
  deleteNote_depends_only_on_id exampleOpenStore "v1"
    ⟨"n1", 1, "A", "B"⟩ ⟨"n1", 2, "C", "D"⟩ rfl

/-- C4: `archiveVideoKindToString` maps `Videos`/`Livestreams`/`Shorts` to
`"videos"`/`"livestreams"`/`"shorts"`, and the mapping is injective
(distinct enumerators map to distinct strings); totality is inherent in the
Lean function, mirroring the exhaustive switch. -/
theorem archiveVideoKindToString_spec :
    archiveVideoKindToString .Videos = "videos"
    ∧ archiveVideoKindToString .Livestreams = "livestreams"
    ∧ archiveVideoKindToString .Shorts = "shorts"
    ∧ ∀ k1 k2 : ArchiveVideoKind,
        (archiveVideoKindToString k1 = archiveVideoKindToString k2 ↔ k1 = k2) := by
  refine ⟨rfl, rfl, rfl, ?_⟩
  intro k1 k2
  cases k1 <;> cases k2 <;> simp [archiveVideoKindToString]

/-- C6: with an archive open whose link parses cleanly,
`fetchVideoDetails(id)` issues a GET to {archive link}/video/{id}, and for
every response its returned pair is exactly (the result of JSON-parsing the
raw text, the verbatim raw text) — the two components cannot drift. -/
theorem fetchVideoDetails_spec :
    ∀ (st : YarkStore) (a : Archive) (id : String),
      st.openedArchive = some a →
      cleanLink (getArchiveApiLink a) = true →
      fetchVideoDetailsRequest st id =
        .ok { method := "GET", url := getArchiveApiLink a ++ "/video/" ++ id }
      ∧ ∀ (raw : String) (pr : Json × String),
          fetchVideoDetailsHandle raw = some pr →
          jsonParse raw = some pr.1 ∧ pr.2 = raw := by
  intro st a id hopen hclean
  constructor
  · simp only [cleanLink] at hclean
    cases hu : newURL (getArchiveApiLink a) with
    | none => rw [hu] at hclean; cases hclean
    | some u =>
      rw [hu] at hclean
      simp only [Bool.and_eq_true, decide_eq_true_eq, List.isEmpty_iff] at hclean
      obtain ⟨hlink, hsearch⟩ := hclean
      simp only [fetchVideoDetailsRequest, getOpenedArchiveApiLink,
        getOpenedArchiveAlways, hopen, hu]
      simp [urlHref, querySerialize, hsearch, ← hlink, String.append_assoc]
  · intro raw pr hr
    unfold fetchVideoDetailsHandle at hr
    cases hj : jsonParse raw with
    | none => rw [hj] at hr; cases hr
    | some j =>
      rw [hj] at hr
      cases hr
      exact ⟨rfl, rfl⟩

/-- Witness for C6 at a concrete open store, video id and response text. -/
theorem fetchVideoDetails_spec_witness :
    fetchVideoDetailsRequest exampleOpenStore "v1" =
      .ok { method := "GET", url := "https://example.com/archive/abc/video/v1" }
    ∧ (jsonParse "[]" = some (Json.arr [], "[]").1 ∧ (Json.arr [], "[]").2 = "[]") :=
  ⟨(fetchVideoDetails_spec exampleOpenStore ⟨"https://example.com", "abc"⟩ "v1"
      rfl rfl).1,
   (fetchVideoDetails_spec exampleOpenStore ⟨"https://example.com", "abc"⟩ "v1"
      rfl rfl).2 "[]" (Json.arr [], "[]") rfl⟩

/-- C7: `videoWasUpdated(v)` is true exactly when at least one of the
title, description or thumbnail histories reports a change through
`elementWasUpdated`; it is false when none of the three does, whatever the
views, likes and deleted histories hold. -/
theorem videoWasUpdated_spec :
    ∀ v : VideoDetailed,
      (videoWasUpdated v = true ↔
        (elementWasUpdated v.title = true
          ∨ elementWasUpdated v.description = true
          ∨ elementWasUpdated v.thumbnail = true))
      ∧ (elementWasUpdated v.title = false →
          elementWasUpdated v.description = false →
          elementWasUpdated v.thumbnail = false →
          videoWasUpdated v = false)
      ∧ (∀ e1 e2 e3,
          videoWasUpdated { v with views := e1, likes := e2, deleted := e3 } =
            videoWasUpdated v) := by
  intro v
  refine ⟨?_, ?_, ?_⟩
  · simp [videoWasUpdated, Bool.or_eq_true, or_assoc]
  · intro h1 h2 h3
    simp [videoWasUpdated, h1, h2, h3]
  · intro e1 e2 e3
    rfl

/-- Witness for C7: a freshly-fetched video whose three major elements
hold a single recorded value is not flagged updated, even though its views
history records a change. -/
theorem videoWasUpdated_spec_witness :
    videoWasUpdated
      ⟨"2024-01-01", 1920, 1080, ⟨["t"]⟩, ⟨["d"]⟩, ⟨["5", "6"]⟩, ⟨["1"]⟩,
        ⟨["th"]⟩, ⟨["false"]⟩, [], .null⟩ = false :=
  (videoWasUpdated_spec
    ⟨"2024-01-01", 1920, 1080, ⟨["t"]⟩, ⟨["d"]⟩, ⟨["5", "6"]⟩, ⟨["1"]⟩,
      ⟨["th"]⟩, ⟨["false"]⟩, [], .null⟩).2.1 rfl rfl rfl

theorem stringMk_data (s : String) : String.mk s.data = s :=
  rfl

theorem skipWs_cons_not (c : Char) (cs : List Char) (h : isWsChar c = false) :
    skipWs (c :: cs) = c :: cs := by
  simp [skipWs, List.dropWhile_cons, h]

theorem hexVal_hexDigit (n : Nat) (h : n < 16) :
    hexVal (hexDigit n) = some n := by
  interval_cases n <;> decide

theorem hex4Val_toHex4 (n : Nat) (h : n < 65536) :
    hex4Val (hexDigit (n / 4096 % 16)) (hexDigit (n / 256 % 16))
      (hexDigit (n / 16 % 16)) (hexDigit (n % 16)) = some n := by
  have h1 := hexVal_hexDigit (n / 4096 % 16) (Nat.mod_lt _ (by norm_num))
  have h2 := hexVal_hexDigit (n / 256 % 16) (Nat.mod_lt _ (by norm_num))
  have h3 := hexVal_hexDigit (n / 16 % 16) (Nat.mod_lt _ (by norm_num))
  have h4 := hexVal_hexDigit (n % 16) (Nat.mod_lt _ (by norm_num))
  simp only [hex4Val, h1, h2, h3, h4]
  congr 1
  omega

theorem parseStringBody_serialize (cs rest : List Char) :
    parseStringBody (serializeStringData cs ++ '"' :: rest) = some (cs, rest) := by
  induction cs with
  | nil =>
    simp only [serializeStringData, List.nil_append]
    rw [parseStringBody.eq_def]
    simp
  | cons c cs ih =>
    simp only [serializeStringData, List.append_assoc]
    by_cases hE : c = '"' ∨ c = '\\' ∨ c.toNat < 32
    · have hlt : c.toNat < 65536 := by
        rcases hE with h | h | h
        · subst h; decide
        · subst h; decide
        · omega
      rw [escapeChar, if_pos hE]
      simp only [toHex4, List.cons_append, List.nil_append]
      rw [parseStringBody.eq_def]
      simp [hex4Val_toHex4 c.toNat hlt, ih, Char.ofNat_toNat]
    · push_neg at hE
      obtain ⟨h1, h2, _⟩ := hE
      rw [escapeChar, if_neg]
      · simp only [List.cons_append, List.nil_append]
        rw [parseStringBody.eq_def]
        simp [h1, h2, ih]
      · push_neg
        exact ⟨h1, h2, by omega⟩

theorem stringMk_server : String.mk ['s', 'e', 'r', 'v', 'e', 'r'] = "server" :=
  rfl

theorem stringMk_slug : String.mk ['s', 'l', 'u', 'g'] = "slug" :=
  rfl

theorem stringLength_mk (cs : List Char) : (String.mk cs).length = cs.length :=
  rfl

theorem parseVal_str (sd rest : List Char) (fuel : Nat) (h : 1 ≤ fuel) :
    parseVal fuel ('"' :: (serializeStringData sd ++ '"' :: rest)) =
      some (.str (String.mk sd), rest) := by
  obtain ⟨f, rfl⟩ : ∃ f, fuel = f + 1 := ⟨fuel - 1, by omega⟩
  rw [parseVal.eq_def]
  simp [skipWs, List.dropWhile_cons, isWsChar, parseStringBody_serialize]

theorem parseFields_last (k2 v2 rest : List Char) (fuel : Nat) (h : 2 ≤ fuel) :
    parseFields fuel
      ('"' :: (serializeStringData k2 ++ '"' :: ':' ::
        ('"' :: (serializeStringData v2 ++ '"' :: '}' :: rest)))) =
      some ([(String.mk k2, .str (String.mk v2))], rest) := by
  obtain ⟨f, rfl⟩ : ∃ f, fuel = f + 1 := ⟨fuel - 1, by omega⟩
  rw [parseFields.eq_def]
  simp only [skipWs, List.dropWhile_cons, isWsChar]
  simp [parseStringBody_serialize]
  simp [List.dropWhile_cons, isWsChar]
  rw [parseVal_str _ _ _ (by omega)]
  simp [List.dropWhile_cons, isWsChar]

theorem parseFields_two (k1 v1 k2 v2 rest : List Char) (fuel : Nat) (h : 3 ≤ fuel) :
    parseFields fuel
      ('"' :: (serializeStringData k1 ++ '"' :: ':' ::
        ('"' :: (serializeStringData v1 ++ '"' :: ',' ::
          ('"' :: (serializeStringData k2 ++ '"' :: ':' ::
            ('"' :: (serializeStringData v2 ++ '"' :: '}' :: rest)))))))) =
      some ([(String.mk k1, .str (String.mk v1)),
             (String.mk k2, .str (String.mk v2))], rest) := by
  obtain ⟨f, rfl⟩ : ∃ f, fuel = f + 1 := ⟨fuel - 1, by omega⟩
  rw [parseFields.eq_def]
  simp only [skipWs, List.dropWhile_cons, isWsChar]
  simp [parseStringBody_serialize]
  simp [List.dropWhile_cons, isWsChar]
  rw [parseVal_str _ _ _ (by omega)]
  simp [List.dropWhile_cons, isWsChar]
  rw [parseFields_last _ _ _ _ (by omega)]

theorem parseVal_encodeArchive (a : Archive) (rest : List Char) (fuel : Nat)
    (h : 4 ≤ fuel) :
    parseVal fuel ('{' :: (encodeArchiveTailData a ++ rest)) =
      some (archiveJson a, rest) := by
  obtain ⟨f, rfl⟩ : ∃ f, fuel = f + 1 := ⟨fuel - 1, by omega⟩
  rw [parseVal.eq_def]
  simp only [encodeArchiveTailData, strLitData, List.cons_append,
    List.append_assoc, List.singleton_append]
  simp only [skipWs, List.dropWhile_cons, isWsChar]
  simp
  rw [parseFields_two _ _ _ _ _ _ (by omega)]
  simp [archiveJson, stringMk_data, stringMk_server, stringMk_slug,
    List.dropWhile_cons, isWsChar]

theorem parseElems_archives (t : List Archive) (a : Archive) (rest : List Char)
    (fuel : Nat) (h : t.length + 5 ≤ fuel) :
    parseElems fuel
      ('{' :: (encodeArchiveTailData a ++ (encodeRecentsSepData t ++ ']' :: rest))) =
      some ((a :: t).map archiveJson, rest) := by
  induction t generalizing a fuel with
  | nil =>
    simp only [List.length_nil] at h
    obtain ⟨f, rfl⟩ : ∃ f, fuel = f + 1 := ⟨fuel - 1, by omega⟩
    rw [parseElems.eq_def]
    simp only [encodeRecentsSepData, List.nil_append]
    rw [parseVal_encodeArchive _ _ _ (by omega)]
    simp [skipWs, List.dropWhile_cons, isWsChar]
  | cons b t ih =>
    simp only [List.length_cons] at h
    obtain ⟨f, rfl⟩ : ∃ f, fuel = f + 1 := ⟨fuel - 1, by omega⟩
    rw [parseElems.eq_def]
    simp only [encodeRecentsSepData, encodeArchiveData, List.cons_append,
      List.append_assoc]
    rw [parseVal_encodeArchive _ _ _ (by omega)]
    simp only [skipWs, List.dropWhile_cons, isWsChar]
    simp
    rw [ih b f (by omega)]
    simp

theorem encodeArchiveData_length_pos (a : Archive) :
    1 ≤ (encodeArchiveData a).length := by
  simp [encodeArchiveData]

theorem encodeRecentsSepData_length (t : List Archive) :
    t.length ≤ (encodeRecentsSepData t).length := by
  induction t with
  | nil => simp [encodeRecentsSepData]
  | cons a t ih =>
    simp only [encodeRecentsSepData, List.length_cons, List.length_append]
    omega

theorem jsonParse_encodeRecents (l : List Archive) :
    jsonParse (encodeRecents l) = some (.arr (l.map archiveJson)) := by
  cases l with
  | nil => rfl
  | cons a t =>
    have hlen1 := encodeArchiveData_length_pos a
    have hlen2 := encodeRecentsSepData_length t
    simp only [jsonParse, encodeRecents, stringLength_mk]
    have hF : t.length + 6 ≤ 2 * (encodeRecentsData (a :: t)).length + 2 := by
      simp only [encodeRecentsData, List.length_cons, List.length_append]
      simp only [encodeArchiveData, List.length_cons] at hlen1
      omega
    obtain ⟨g, hg⟩ :
        ∃ g, 2 * (encodeRecentsData (a :: t)).length + 2 = g + 1 :=
      ⟨2 * (encodeRecentsData (a :: t)).length + 1, by omega⟩
    rw [hg, parseVal.eq_def]
    simp only [encodeRecentsData, encodeArchiveData, List.cons_append,
      List.append_assoc, List.singleton_append]
    simp only [skipWs, List.dropWhile_cons, isWsChar]
    simp
    rw [parseElems_archives t a [] g (by omega)]
    simp [List.dropWhile_cons, isWsChar]

theorem jsonToArchives_map (l : List Archive) :
    jsonToArchives (l.map archiveJson) = some l := by
  induction l with
  | nil => rfl
  | cons a t ih =>
    simp [jsonToArchives, jsonToArchive, archiveJson, ih]

/-- C8: decoding the recentArchives cookie yields the empty list when the
cookie is absent, and encoding any list of `{server, slug}` records to the
JSON cookie format and decoding it back yields an equal list. -/
theorem recentArchives_roundtrip :
    loadRecentArchives none = some []
    ∧ ∀ l : List Archive, loadRecentArchives (some (encodeRecents l)) = some l := by
  refine ⟨rfl, ?_⟩
  intro l
  simp [loadRecentArchives, jsonParse_encodeRecents, jsonToArchives_map]
